import Mathlib

/-!
# Verification of the IPTV adaptive playback engine

A shallow embedding of the playlist parser (`parseM3U`), protocol
classifier, HLS/DASH error handling, buffer-health monitor and the
fatal-error escalation machinery of the player component, together with
theorems checking the natural-language specification against it.

Conventions: JavaScript strings are Lean `String`s, and the JS string
methods used by the source (`trim`, `split`, `startsWith`, `endsWith`,
`toLowerCase`, `indexOf`-style searching) are given structurally
recursive models over the character list so that everything evaluates
inside the kernel; JS objects used as string-to-string maps are
association lists updated in place (`setProp`); `undefined`/absent
values are `Option`; JS truthiness of an optional string (`undefined`
and `""` are falsy) is `optTruthy`; media times are rational seconds.
-/

/-! ## JS string primitives -/

/-- ASCII lower-casing of one character, as `toLowerCase` acts on the
characters appearing in stream URLs. -/
def charToLower (c : Char) : Char :=
  if 65 ≤ c.toNat && c.toNat ≤ 90 then Char.ofNat (c.toNat + 32) else c

/-- `toLowerCase`. -/
def strToLower (s : String) : String :=
  String.mk (s.toList.map charToLower)

/-- The whitespace characters `trim` removes on the inputs at hand. -/
def isSpaceChar (c : Char) : Bool :=
  c == ' ' || c == '\t' || c == '\n' || c == '\r'

/-- JS `trim`: strip whitespace from both ends. -/
def jsTrim (s : String) : String :=
  String.mk (((s.toList.dropWhile isSpaceChar).reverse.dropWhile isSpaceChar).reverse)

/-- JS `startsWith`. -/
def strStartsWith (s pre : String) : Bool :=
  pre.toList.isPrefixOf s.toList

/-- JS `endsWith`. -/
def strEndsWith (s suf : String) : Bool :=
  suf.toList.reverse.isPrefixOf s.toList.reverse

/-- Whether the string is empty (JS falsiness of a string). -/
def strIsEmpty (s : String) : Bool :=
  s.toList.isEmpty

/-- JS `includes`/`indexOf ≥ 0` for a single character. -/
def strContains (s : String) (c : Char) : Bool :=
  s.toList.contains c

/-- JS `substring(n)` on the inputs at hand (ASCII positions). -/
def strDrop (s : String) (n : Nat) : String :=
  String.mk (s.toList.drop n)

/-- JS `split(sep)` for a one-character separator, on character
lists: always returns at least one (possibly empty) piece. -/
def splitOnChar (sep : Char) : List Char → List (List Char)
  | [] => [[]]
  | c :: cs =>
    if c == sep then [] :: splitOnChar sep cs
    else
      match splitOnChar sep cs with
      | [] => [[c]]
      | p :: ps => (c :: p) :: ps

/-- JS `split(sep)` for a one-character separator. -/
def jsSplit (s : String) (sep : Char) : List String :=
  (splitOnChar sep s.toList).map String.mk

/-- JS `join(sep)`. -/
def joinSep (sep : String) : List String → String
  | [] => ""
  | [x] => x
  | x :: xs => x ++ sep ++ joinSep sep xs

/-- The suffix following the first occurrence of `pat`, if `pat` occurs
(the searching part of a JS regex/`indexOf` match). -/
def afterFirst (pat : List Char) : List Char → Option (List Char)
  | [] => none
  | c :: cs =>
    if pat.isPrefixOf (c :: cs) then some (List.drop pat.length (c :: cs))
    else afterFirst pat cs

/-- JS code-unit comparison of two strings (the default `sort()`
order): lexicographic on character codes. -/
def charListLe : List Char → List Char → Bool
  | [], _ => true
  | _ :: _, [] => false
  | a :: as, b :: bs =>
    if a.toNat < b.toNat then true
    else if b.toNat < a.toNat then false
    else charListLe as bs

/-- `a ≤ b` in the default JS `sort()` order. -/
def strLe (a b : String) : Bool :=
  charListLe a.toList b.toList

/-- Insert into a `strLe`-sorted list. -/
def insertSorted (x : String) : List String → List String
  | [] => [x]
  | y :: ys => if strLe x y then x :: y :: ys else y :: insertSorted x ys

/-- The JS default `sort()` on a duplicate-free string list: the unique
`strLe`-sorted permutation, realized by insertion sort. -/
def sortStrings : List String → List String
  | [] => []
  | x :: xs => insertSorted x (sortStrings xs)

/-- The list is sorted for `strLe` (each element ≤ its successor). -/
def chainLe : List String → Bool
  | [] => true
  | [_] => true
  | a :: b :: r => strLe a b && chainLe (b :: r)

/-- JS truthiness of an optional string: `undefined` and `""` are falsy. -/
def optTruthy : Option String → Bool
  | none => false
  | some s => !strIsEmpty s

/-- JS object assignment `m[k] = v`: overwrite in place if the key is
present, otherwise append the new binding at the end. -/
def setProp : List (String × String) → String → String → List (String × String)
  | [], k, v => [(k, v)]
  | p :: l, k, v => if p.1 == k then (p.1, v) :: l else p :: setProp l k v

/-- JS object read `m[k]`: value of the first binding of `k`, if any. -/
def getProp (l : List (String × String)) (k : String) : Option String :=
  (l.find? (fun p => p.1 == k)).map (fun p => p.2)

/-- Hexadecimal digit value, as used by percent-decoding. -/
def hexVal (c : Char) : Option Nat :=
  if '0' ≤ c ∧ c ≤ '9' then some (c.toNat - '0'.toNat)
  else if 'a' ≤ c ∧ c ≤ 'f' then some (c.toNat - 'a'.toNat + 10)
  else if 'A' ≤ c ∧ c ≤ 'F' then some (c.toNat - 'A'.toNat + 10)
  else none

/-- Percent-escape decoding on a character list: `%xy` with two hex
digits becomes the character with code `16*x + y`; anything else is
copied unchanged. -/
def percentDecodeChars : List Char → List Char
  | [] => []
  | '%' :: a :: b :: rest =>
    match hexVal a, hexVal b with
    | some hi, some lo => Char.ofNat (16 * hi + lo) :: percentDecodeChars rest
    | _, _ => '%' :: percentDecodeChars (a :: b :: rest)
  | c :: rest => c :: percentDecodeChars rest

/-- Model of the JS builtin `decodeURIComponent` for the single-byte
percent escapes the playlists use (e.g. `%20`); malformed escapes are
kept as-is instead of throwing. -/
def decodeURIComponent (s : String) : String :=
  String.mk (percentDecodeChars s.toList)

/-! ## Data model (`types.ts`) -/

/-- `DrmConfig` of `types.ts`: key-system identifier, license URL and an
optional header map. -/
structure DrmConfig where
  type : String
  licenseUrl : String
  headers : Option (List (String × String))
deriving DecidableEq, Repr

/-- `Channel` of `types.ts`. -/
structure Channel where
  id : String
  tvgId : Option String
  name : String
  logo : Option String
  group : Option String
  url : String
  drm : Option DrmConfig
  userAgent : Option String
  referrer : Option String
deriving DecidableEq, Repr

/-- `Category` of `types.ts`. -/
structure Category where
  id : String
  name : String
deriving DecidableEq, Repr

/-! ## Playlist parser (`parseM3U` in `src/App.tsx`) -/

/-- The `currentChannel` accumulator of `parseM3U`: a partial channel
whose fields may be absent. -/
structure PendingChannel where
  tvgId : Option String := none
  name : Option String := none
  logo : Option String := none
  group : Option String := none
deriving DecidableEq, Repr

/-- The scan state of `parseM3U`: output channels, the category name
set (insertion order kept, duplicates dropped), the pending channel and
pending `#KODIPROP` properties. -/
structure PState where
  channels : List Channel
  cats : List String
  cur : PendingChannel
  props : List (String × String)
deriving DecidableEq, Repr

/-- Add a name to the category set (`Set.add`): no-op when present. -/
def setAdd (l : List String) (x : String) : List String :=
  if l.contains x then l else l ++ [x]

/-- First capture of the JS regex `key="([^"]*)"` applied to `info`:
text between the first occurrence of `key="` and the next quote, if a
closing quote exists. -/
def matchAttr (key : String) (info : String) : Option String :=
  match afterFirst (key.toList ++ ['=', '"']) info.toList with
  | none => none
  | some rest =>
    if rest.contains '"' then
      some (String.mk (rest.takeWhile (fun c => !(c == '"'))))
    else none

/-- Display-name extraction of `parseM3U`: the trimmed text after the
final comma of the `#EXTINF` payload (`info.split(',')` last element). -/
def extractName (info : String) : String :=
  jsTrim ((jsSplit info ',').getLast?.getD "")

/-- `#KODIPROP:` handling of `parseM3U`: split the payload at the first
`=`; when present, record the trimmed key/value pair (overwriting an
earlier value for the same key), otherwise ignore the line. -/
def applyKodiprop (st : PState) (prop : String) : PState :=
  match jsSplit prop '=' with
  | [] => st
  | [_] => st
  | k :: rest =>
    { st with props := setProp st.props (jsTrim k) (jsTrim (joinSep "=" rest)) }

/-- `#EXTINF:` handling of `parseM3U`: extract `tvg-id`, `tvg-logo`,
`group-title` (defaulting to `"Uncategorized"`) and the display name
(defaulting to `"Unknown Channel"` when empty), replace the pending
channel, and add a truthy group to the category set. -/
def applyExtinf (st : PState) (info : String) : PState :=
  let name := extractName info
  let cur : PendingChannel :=
    { tvgId := matchAttr "tvg-id" info,
      name := some (if strIsEmpty name then "Unknown Channel" else name),
      logo := matchAttr "tvg-logo" info,
      group := some ((matchAttr "group-title" info).getD "Uncategorized") }
  let st2 := { st with cur := cur }
  if optTruthy cur.group then { st2 with cats := setAdd st2.cats (cur.group.getD "") }
  else st2

/-- One `Header=Value` piece: `const [k, v] = h.split('=')` keeps the
first two segments only; the pair is dropped unless both are
non-empty, and the value is percent-decoded. -/
def pairKV (h : String) : Option (String × String) :=
  match jsSplit h '=' with
  | k :: v :: _ =>
    if !strIsEmpty k && !strIsEmpty v then some (k, decodeURIComponent v) else none
  | _ => none

/-- The header map built from a pipe-suffix string: split on `&` and
fold the accepted pairs into the map. -/
def parseHeaderPairs (s : String) : List (String × String) :=
  (jsSplit s '&').foldl
    (fun acc h =>
      match pairKV h with
      | some kv => setProp acc kv.1 kv.2
      | none => acc) []

/-- License-key splitting of `parseM3U`: when the value contains a pipe,
`split('|')` it; element 0 is the license URL and element 1 (when
non-empty) holds the `&`/`=`-delimited headers. -/
def licenseKeySplit (key : String) : String × List (String × String) :=
  if strContains key '|' then
    let ps := jsSplit key '|'
    let url := ps.headD ""
    let part1 := (ps[1]?).getD ""
    (url, if strIsEmpty part1 then [] else parseHeaderPairs part1)
  else (key, [])

/-- Modelled from the spec: split the license-key value at the first
pipe; the whole remainder after the first pipe (when present) is the
header part. Stated for comparison with `licenseKeySplit`. -/
def licenseKeySpecSplit (key : String) : String × List (String × String) :=
  if strContains key '|' then
    let ps := jsSplit key '|'
    let url := ps.headD ""
    let after := joinSep "|" ps.tail
    (url, if strIsEmpty after then [] else parseHeaderPairs after)
  else (key, [])

/-- URL-line handling of `parseM3U`: build the channel from the pending
metadata and properties, append it, record its group in the category
set, and clear both accumulators. -/
def pushChannel (now idx : Nat) (st : PState) (url : String) : PState :=
  let licenseType := getProp st.props "inputstream.adaptive.license_type"
  let licenseKey := getProp st.props "inputstream.adaptive.license_key"
  let drm : Option DrmConfig :=
    if optTruthy licenseType && optTruthy licenseKey then
      let lk := licenseKeySplit (licenseKey.getD "")
      some { type := licenseType.getD "", licenseUrl := lk.1, headers := some lk.2 }
    else none
  let channelName :=
    if optTruthy st.cur.name then st.cur.name.getD ""
    else "Channel " ++ toString (st.channels.length + 1)
  let grp := if optTruthy st.cur.group then st.cur.group.getD "" else "Uncategorized"
  let c : Channel :=
    { id := "ch-" ++ toString now ++ "-" ++ toString idx,
      tvgId := st.cur.tvgId,
      name := channelName,
      logo := st.cur.logo,
      group := some grp,
      url := url,
      drm := drm,
      userAgent := getProp st.props "http-user-agent",
      referrer := getProp st.props "http-referrer" }
  { channels := st.channels ++ [c],
    cats := setAdd st.cats grp,
    cur := {},
    props := [] }

/-- One iteration of the `lines.forEach` scan of `parseM3U`. -/
def processLine (now : Nat) (st : PState) (idx : Nat) (line : String) : PState :=
  let trimmed := jsTrim line
  if strIsEmpty trimmed then st
  else if strStartsWith trimmed "#KODIPROP:" then applyKodiprop st (strDrop trimmed 10)
  else if strStartsWith trimmed "#EXTINF:" then applyExtinf st (strDrop trimmed 8)
  else if strStartsWith trimmed "#" then st
  else pushChannel now idx st trimmed

/-- The `forEach` loop of `parseM3U`, carrying the line index. -/
def runLines (now : Nat) : PState → Nat → List String → PState
  | st, _, [] => st
  | st, idx, l :: ls => runLines now (processLine now st idx l) (idx + 1) ls

/-- Initial scan state of `parseM3U`. -/
def initPState : PState := { channels := [], cats := [], cur := {}, props := [] }

/-- `Array.from(set).sort().map((cat, idx) => ...)`: sequential
category identifiers over the sorted names. -/
def mkCategories : Nat → List String → List Category
  | _, [] => []
  | i, n :: ns => { id := "cat-" ++ toString i, name := n } :: mkCategories (i + 1) ns

/-- `parseM3U` of `src/App.tsx`. `now` stands for the `Date.now()`
timestamp used in the internal channel identifiers. -/
def parseM3U (now : Nat) (content : String) : List Channel × List Category :=
  let lines := jsSplit content '\n'
  let st := runLines now initPState 0 lines
  let sorted := sortStrings st.cats
  (st.channels, { id := "all", name := "All Channels" } :: mkCategories 0 sorted)

/-! ## Protocol classifier (backend selection in the player component) -/

/-- The four decoding backends the player chooses among. -/
inductive Protocol
  | dash
  | mpegTsFlv
  | hls
  | native
deriving DecidableEq, Repr

/-- Environment capability flags probed by the player:
`mpegts.getFeatureList().mseLivePlayback`, `Hls.isSupported()`, and
`video.canPlayType('application/vnd.apple.mpegurl')`. -/
structure PlayerEnv where
  mseLivePlayback : Bool
  hlsSupported : Bool
  canPlayNativeHls : Bool
deriving DecidableEq, Repr

/-- The backend-selection branch structure of the player, over the four
extension flags and the capability flags, in source order. -/
def classifyCore (isDash isFlv isTs isM3u8 mse hlsSup nativeHls : Bool) : Protocol :=
  if isDash then .dash
  else if (isFlv || isTs) && mse then .mpegTsFlv
  else if hlsSup && (isM3u8 || (!isDash && !isFlv && !isTs && !nativeHls)) then .hls
  else .native

/-- `url.trim().split('?')[0].toLowerCase()`. -/
def cleanUrlOf (url : String) : String :=
  strToLower ((jsSplit (jsTrim url) '?').headD "")

/-- Protocol classification of the player: extension flags computed on
the cleaned URL, fed to the source's branch order. -/
def classify (url : String) (env : PlayerEnv) : Protocol :=
  let cleanUrl := cleanUrlOf url
  classifyCore (strEndsWith cleanUrl ".mpd") (strEndsWith cleanUrl ".flv")
    (strEndsWith cleanUrl ".ts") (strEndsWith cleanUrl ".m3u8")
    env.mseLivePlayback env.hlsSupported env.canPlayNativeHls

/-- Modelled from the spec: the classifier's decision list as the spec
words it — `.mpd` → DASH; `.flv`/`.ts` → MPEG-TS/FLV only with
segmented-playback support, else fall through; `.m3u8`, or no
recognized extension without native HLS support, → HLS only when the
HLS engine is available; otherwise NATIVE. -/
def classifySpecCore (isDash isFlv isTs isM3u8 mse hlsSup nativeHls : Bool) : Protocol :=
  if isDash then .dash
  else if (isFlv || isTs) && mse then .mpegTsFlv
  else if (isM3u8 || (!(isDash || isFlv || isTs || isM3u8) && !nativeHls)) && hlsSup then .hls
  else .native

/-- Modelled from the spec: `classify`, with the spec's decision list. -/
def classifySpec (url : String) (env : PlayerEnv) : Protocol :=
  let cleanUrl := cleanUrlOf url
  classifySpecCore (strEndsWith cleanUrl ".mpd") (strEndsWith cleanUrl ".flv")
    (strEndsWith cleanUrl ".ts") (strEndsWith cleanUrl ".m3u8")
    env.mseLivePlayback env.hlsSupported env.canPlayNativeHls

/-! ## Buffer health monitor (`checkHealth` in the player component) -/

/-- The five health classifications. -/
inductive HealthStatus
  | good
  | fair
  | poor
  | buffering
  | offline
deriving DecidableEq, Repr

/-- The observable media-element state sampled by `checkHealth`:
whether `video.error` is set, `video.readyState`, `video.currentTime`
and the `video.buffered` time ranges. -/
structure VideoSample where
  hasError : Bool
  readyState : Nat
  currentTime : ℚ
  buffered : List (ℚ × ℚ)
deriving DecidableEq, Repr

/-- The range-scan loop of `checkHealth`: the end of the first buffered
range whose `start ≤ t ≤ end`, or `0` when none covers `t`. -/
def coveringEnd : List (ℚ × ℚ) → ℚ → ℚ
  | [], _ => 0
  | r :: rest, t => if r.1 ≤ t ∧ t ≤ r.2 then r.2 else coveringEnd rest t

/-- JS `Math.max` on rationals. -/
def mathMax (a b : ℚ) : ℚ := if a ≤ b then b else a

/-- `checkHealth` of the player component: offline when the element
errored or the session is pending removal, buffering when
`readyState < 3`, otherwise classify the buffer lead. -/
def checkHealth (v : VideoSample) (isRemoving : Bool) : HealthStatus × ℚ :=
  if v.hasError || isRemoving then (.offline, 0)
  else if v.readyState < 3 then (.buffering, 0)
  else
    let bufferEnd := coveringEnd v.buffered v.currentTime
    let bufferLead := mathMax 0 (bufferEnd - v.currentTime)
    if bufferLead < 2 then (.poor, bufferLead)
    else if bufferLead < 5 then (.fair, bufferLead)
    else (.good, bufferLead)

/-- Modelled from the spec: the lead thresholds — `< 2s` poor,
`2s ≤ lead < 5s` fair, `≥ 5s` good. -/
def statusOfLead (lead : ℚ) : HealthStatus :=
  if lead < 2 then .poor else if lead < 5 then .fair else .good

/-- Modelled from the spec: buffer lead = end of the covering buffered
range minus the current position, `0` when no range covers it. -/
def leadOf (v : VideoSample) : ℚ :=
  mathMax 0 (coveringEnd v.buffered v.currentTime - v.currentTime)

/-! ## HLS error handling (the `Hls.Events.ERROR` callback) -/

/-- The hls.js error classes distinguished by the handler. -/
inductive HlsErrorType
  | networkError
  | mediaError
  | keySystemError
  | muxError
  | otherError
deriving DecidableEq, Repr

/-- The action the HLS error handler takes. -/
inductive HlsAction
  | ignore
  | startLoad
  | recoverMediaError
  | destroyAndFatal (msg : String)
deriving DecidableEq, Repr

/-- The `hls.on(Hls.Events.ERROR, ...)` handler: only fatal-flagged
errors are considered; network-class resumes loading, media-class
attempts media recovery, anything else destroys the players and raises
the fatal verdict "Stream Connection Failed". -/
def hlsOnError (fatal : Bool) (t : HlsErrorType) : HlsAction :=
  if fatal then
    match t with
    | .networkError => .startLoad
    | .mediaError => .recoverMediaError
    | _ => .destroyAndFatal "Stream Connection Failed"
  else .ignore

/-- The fatal verdict an HLS action escalates, if any. -/
def actionEscalates : HlsAction → Option String
  | .destroyAndFatal msg => some msg
  | _ => none

/-- Whether an HLS action tears the adapter down. -/
def actionDestroysAdapter : HlsAction → Bool
  | .destroyAndFatal _ => true
  | _ => false

/-! ## Fatal-error escalation (the `isRemoving` machinery)

`handleFatalError` records the message and sets `isRemoving`; the
effect watching `isRemoving` starts a 2.5-second timer exactly when the
flag turns on, and the timer invokes `onChannelError(channel.id)` once.
Time is rational seconds; `SessEvent` is the player's event alphabet
and `sessStep` its single-threaded step function. -/

/-- The fixed delay (seconds) before a fatal verdict is delivered. -/
def removalDelay : ℚ := 5 / 2

/-- The player state relevant to fatal-error escalation: current time,
the `isRemoving` flag, the error message, the pending timer deadline,
whether the timer already fired, and the recorded `onChannelError`
invocations. -/
structure SessState where
  now : ℚ
  isRemoving : Bool
  errorMsg : Option String
  deadline : Option ℚ
  timerFired : Bool
  calls : List String
deriving DecidableEq, Repr

/-- `handleFatalError`: set the message; when `isRemoving` was off, turn
it on, which schedules the removal timer `removalDelay` from now (the
watcher effect runs only on the flag's change, so a second fatal error
does not reschedule). -/
def handleFatalError (s : SessState) (msg : String) : SessState :=
  if s.isRemoving then { s with errorMsg := some msg }
  else { s with errorMsg := some msg, isRemoving := true,
                deadline := some (s.now + removalDelay) }

/-- Events of the playback session: time passing, a DASH engine error
(always routed to `handleFatalError "DASH Error"`), and an HLS error
event routed through `hlsOnError`. -/
inductive SessEvent
  | advance (delta : ℚ)
  | dashError
  | hlsError (fatal : Bool) (t : HlsErrorType)
deriving DecidableEq, Repr

/-- One step of the session: advancing time fires the pending timer at
its deadline (once), recording the `onChannelError` call with the
channel's identifier; error events are classified as in the source. -/
def sessStep (ch : Channel) (s : SessState) : SessEvent → SessState
  | .advance delta =>
    let s2 := { s with now := s.now + delta }
    match s2.deadline with
    | some d =>
      if s2.timerFired then s2
      else if d ≤ s2.now then { s2 with timerFired := true, calls := s2.calls ++ [ch.id] }
      else s2
    | none => s2
  | .dashError => handleFatalError s "DASH Error"
  | .hlsError fatal t =>
    match hlsOnError fatal t with
    | .destroyAndFatal msg => handleFatalError s msg
    | _ => s

/-- Run a list of session events. -/
def sessRun (ch : Channel) (s : SessState) (evs : List SessEvent) : SessState :=
  evs.foldl (sessStep ch) s

/-- The state of a freshly started session. -/
def initSessState : SessState :=
  { now := 0, isRemoving := false, errorMsg := none, deadline := none,
    timerFired := false, calls := [] }

/-- The session is `Active`: no error recorded and not pending removal. -/
def sessionActive (s : SessState) : Bool :=
  !s.isRemoving && s.errorMsg.isNone

/-! ## Play-rejection handling per backend -/

/-- How a rejected `video.play()` promise is surfaced. -/
inductive PlayOutcome
  | swallowed
  | pausedNonFatal
  | loggedOnly
  | surfacedError (msg : String)
  | fatalVerdict (msg : String)
deriving DecidableEq, Repr

/-- `safePlay`'s rejection handler: `AbortError` is swallowed,
`NotAllowedError` flips the UI to paused (non-fatal), anything else is
only logged. -/
def safePlayHandler (errName : String) : PlayOutcome :=
  if errName == "AbortError" then .swallowed
  else if errName == "NotAllowedError" then .pausedNonFatal
  else .loggedOnly

/-- The mpegts adapter's play-promise rejection handler: `AbortError`
is swallowed, anything else — including `NotAllowedError` — is only
logged. -/
def mpegtsPlayHandler (errName : String) : PlayOutcome :=
  if errName == "AbortError" then .swallowed
  else .loggedOnly

/-- The four backend adapters. -/
inductive Backend
  | dash
  | mpegTsFlv
  | hls
  | native
deriving DecidableEq, Repr

/-- The play-promise rejection handler each adapter installs: the HLS
and native paths go through `safePlay`, the mpegts path uses its own
catch, and the DASH path delegates autoplay to the engine and installs
none. -/
def adapterPlayRejectionHandler : Backend → Option (String → PlayOutcome)
  | .dash => none
  | .mpegTsFlv => some mpegtsPlayHandler
  | .hls => some safePlayHandler
  | .native => some safePlayHandler

/-- Whether an outcome escalates to an error state or a fatal verdict. -/
def outcomeEscalates : PlayOutcome → Bool
  | .surfacedError _ => true
  | .fatalVerdict _ => true
  | _ => false

/-- A line the scan treats as a stream URL: non-empty after trimming
and caught by none of the `#`-prefixed branches. -/
def isUrlLine (u : String) : Bool :=
  !strIsEmpty (jsTrim u) && !strStartsWith (jsTrim u) "#KODIPROP:"
    && !strStartsWith (jsTrim u) "#EXTINF:" && !strStartsWith (jsTrim u) "#"

/-! ## Helper lemmas -/

theorem classifyCore_eq_specCore (a b c d e f g : Bool) :
    classifyCore a b c d e f g = classifySpecCore a b c d e f g := by
  cases a <;> cases b <;> cases c <;> cases d <;> cases e <;> cases f <;> cases g <;> rfl

theorem coveringEnd_eq_zero (l : List (ℚ × ℚ)) (t : ℚ)
    (h : ∀ rg ∈ l, ¬(rg.1 ≤ t ∧ t ≤ rg.2)) : coveringEnd l t = 0 := by
  induction l with
  | nil => rfl
  | cons rg rest ih =>
    have hrg := h rg (List.mem_cons_self rg rest)
    simp only [coveringEnd, if_neg hrg]
    exact ih fun r hr => h r (List.mem_cons_of_mem rg hr)

/-! ## Claims -/

/-- C2: every HLS error event that is not flagged fatal is ignored; a
fatal network-class error takes the local `startLoad` recovery and
escalates no fatal verdict; a fatal media-class error takes
`recoverMediaError` and escalates nothing; every other fatal class
destroys the adapter and escalates the fatal verdict
"Stream Connection Failed". -/
theorem claim_c2_hls_error_policy :
    (∀ t, hlsOnError false t = HlsAction.ignore)
    ∧ hlsOnError true HlsErrorType.networkError = HlsAction.startLoad
    ∧ actionEscalates (hlsOnError true HlsErrorType.networkError) = none
    ∧ actionDestroysAdapter (hlsOnError true HlsErrorType.networkError) = false
    ∧ hlsOnError true HlsErrorType.mediaError = HlsAction.recoverMediaError
    ∧ actionEscalates (hlsOnError true HlsErrorType.mediaError) = none
    ∧ actionDestroysAdapter (hlsOnError true HlsErrorType.mediaError) = false
    ∧ hlsOnError true HlsErrorType.keySystemError = HlsAction.destroyAndFatal "Stream Connection Failed"
    ∧ hlsOnError true HlsErrorType.muxError = HlsAction.destroyAndFatal "Stream Connection Failed"
    ∧ hlsOnError true HlsErrorType.otherError = HlsAction.destroyAndFatal "Stream Connection Failed"
    ∧ actionDestroysAdapter (hlsOnError true HlsErrorType.otherError) = true
    ∧ actionEscalates (hlsOnError true HlsErrorType.otherError) = some "Stream Connection Failed" := by
  refine ⟨fun t => ?_, rfl, rfl, rfl, rfl, rfl, rfl, rfl, rfl, rfl, rfl, rfl⟩
  cases t <;> rfl

/-- C7: protocol classification is total over the four classes, agrees
with the spec's first-match decision list (`.mpd` → DASH; `.flv`/`.ts`
→ MPEG-TS/FLV only with segmented support, else fall through; `.m3u8`,
or no recognized extension without native HLS, → HLS only when the HLS
engine is available; otherwise NATIVE) on the case-insensitive,
query-stripped URL, and classifies `.MPD?token=1` as DASH. -/
theorem claim_c7_classifier :
    (∀ url env, classify url env = classifySpec url env)
    ∧ (∀ url env, classify url env = Protocol.dash ∨ classify url env = Protocol.mpegTsFlv
        ∨ classify url env = Protocol.hls ∨ classify url env = Protocol.native)
    ∧ (∀ env, classify ".MPD?token=1" env = Protocol.dash) := by
  refine ⟨fun url env => classifyCore_eq_specCore _ _ _ _ _ _ _, fun url env => ?_,
    fun env => rfl⟩
  cases hc : classify url env
  · exact Or.inl rfl
  · exact Or.inr (Or.inl rfl)
  · exact Or.inr (Or.inr (Or.inl rfl))
  · exact Or.inr (Or.inr (Or.inr rfl))

/-- C8: a health sample is `offline` with lead 0 when the element
errored or the session is pending removal; `buffering` with lead 0 when
the ready state is below 3; otherwise the pair is exactly the spec's
lead (end of the covering buffered range minus position, 0 without a
covering range) with the <2/<5 threshold classification; buffered
[0, 20) at position 12 gives lead 8 and `good`; position 9 with only
[10, 10.5) and sufficient ready state gives lead 0 and `poor`. -/
theorem claim_c8_checkHealth :
    (∀ v r, (v.hasError || r) = true → checkHealth v r = (HealthStatus.offline, 0))
    ∧ (∀ v r, (v.hasError || r) = false → v.readyState < 3 →
        checkHealth v r = (HealthStatus.buffering, 0))
    ∧ (∀ v r, (v.hasError || r) = false → 3 ≤ v.readyState →
        checkHealth v r = (statusOfLead (leadOf v), leadOf v))
    ∧ (∀ v : VideoSample, 0 ≤ v.currentTime →
        (∀ rg ∈ v.buffered, ¬(rg.1 ≤ v.currentTime ∧ v.currentTime ≤ rg.2)) →
        leadOf v = 0)
    ∧ checkHealth ⟨false, 4, 12, [(0, 20)]⟩ false = (HealthStatus.good, 8)
    ∧ checkHealth ⟨false, 4, 9, [(10, 21/2)]⟩ false = (HealthStatus.poor, 0) := by
  refine ⟨fun v r h => ?_, fun v r h h3 => ?_, fun v r h h3 => ?_, fun v h0 hnone => ?_,
    by norm_num [checkHealth, coveringEnd, mathMax],
    by norm_num [checkHealth, coveringEnd, mathMax]⟩
  · simp [checkHealth, h]
  · simp [checkHealth, h, h3]
  · simp only [checkHealth, statusOfLead, leadOf, h, Bool.false_eq_true, if_false,
      if_neg (Nat.not_lt.mpr h3)]
    split_ifs <;> rfl
  · have hcov := coveringEnd_eq_zero v.buffered v.currentTime hnone
    simp only [leadOf, hcov, mathMax]
    split_ifs with hle
    · linarith
    · rfl

/-- C8 witness: the branches of `claim_c8_checkHealth` instantiated at
concrete samples. -/
theorem claim_c8_checkHealth_witness :
    checkHealth ⟨true, 4, 0, []⟩ false = (HealthStatus.offline, 0)
    ∧ checkHealth ⟨false, 2, 0, []⟩ false = (HealthStatus.buffering, 0)
    ∧ checkHealth ⟨false, 4, 12, [(0, 20)]⟩ false =
        (statusOfLead (leadOf ⟨false, 4, 12, [(0, 20)]⟩), leadOf ⟨false, 4, 12, [(0, 20)]⟩)
    ∧ leadOf ⟨false, 4, 9, [(10, 21/2)]⟩ = 0 := by
  refine ⟨claim_c8_checkHealth.1 _ false rfl,
          claim_c8_checkHealth.2.1 _ false rfl (by norm_num),
          claim_c8_checkHealth.2.2.1 _ false rfl (by norm_num),
          claim_c8_checkHealth.2.2.2.1 _ (by norm_num) ?_⟩
  intro rg hrg
  simp only [List.mem_singleton] at hrg
  subst hrg
  norm_num

/-- C9 counterexample: the segmented TS/FLV adapter does install a
play-rejection handler, and on a "not allowed" (autoplay policy)
rejection it only logs — it does not surface the non-fatal paused
state the claim asserts for every adapter. -/
theorem claim_c9_counterexample :
    mpegtsPlayHandler "NotAllowedError" = PlayOutcome.loggedOnly
    ∧ (adapterPlayRejectionHandler Backend.mpegTsFlv).isSome = true
    ∧ (decide (mpegtsPlayHandler "NotAllowedError" = PlayOutcome.pausedNonFatal)) = false := by
  exact ⟨by decide, by decide, by decide⟩

/-- C9 amended: the HLS and native adapters (via `safePlay`) surface a
"not allowed" play rejection as the non-fatal paused state; the
segmented TS/FLV adapter merely logs it; the DASH adapter installs no
play-rejection handler; and no adapter turns it into an error state or
a fatal verdict. -/
theorem claim_c9_amended :
    safePlayHandler "NotAllowedError" = PlayOutcome.pausedNonFatal
    ∧ mpegtsPlayHandler "NotAllowedError" = PlayOutcome.loggedOnly
    ∧ adapterPlayRejectionHandler Backend.hls = some safePlayHandler
    ∧ adapterPlayRejectionHandler Backend.native = some safePlayHandler
    ∧ (adapterPlayRejectionHandler Backend.dash).isNone = true
    ∧ (∀ b, ((adapterPlayRejectionHandler b).map
        (fun h => outcomeEscalates (h "NotAllowedError"))).getD false = false) := by
  refine ⟨by decide, by decide, rfl, rfl, rfl, fun b => ?_⟩
  cases b <;> rfl

/-- C5 counterexample: with a second pipe in the license-key value the
code keeps only the segment between the first and second pipe
(`split('|')[1]`), so the headers differ from the claim's "everything
after the first pipe" reading — both at the splitting function and on
an actual parse. -/
theorem claim_c5_counterexample :
    licenseKeySplit "u|H=a|x" = ("u", [("H", "a")])
    ∧ licenseKeySpecSplit "u|H=a|x" = ("u", [("H", "a|x")])
    ∧ (decide (licenseKeySplit "u|H=a|x" = licenseKeySpecSplit "u|H=a|x")) = false
    ∧ ((parseM3U 0 "#KODIPROP:inputstream.adaptive.license_type=ck\n#KODIPROP:inputstream.adaptive.license_key=u|H=a|x\nhttp://s").1.map
        (fun c => c.drm)) = [some { type := "ck", licenseUrl := "u", headers := some [("H", "a")] }] := by
  refine ⟨by decide, by decide, by decide, by decide⟩

/-- C5 amended: the license-key value is `split('|')`; the part before
the first pipe is the license URL, and the segment between the first
and second pipe (anything after a second pipe is discarded), when
non-empty, is split on `&` and `=` into URL-decoded header pairs. On
values with at most one pipe this agrees with the claim's
"first pipe" reading, and the claim's concrete example parses to
license URL `https://lic.example/x` with headers
`Header1 ↦ "aaa"`, `Header2 ↦ "b b"`. -/
theorem claim_c5_amended :
    (∀ key, (jsSplit key '|').length ≤ 2 → licenseKeySplit key = licenseKeySpecSplit key)
    ∧ ((parseM3U 0 "#KODIPROP:inputstream.adaptive.license_type=clearkey\n#KODIPROP:inputstream.adaptive.license_key=https://lic.example/x|Header1=aaa&Header2=b%20b\nhttp://stream").1.map
        (fun c => c.drm)) =
      [some { type := "clearkey", licenseUrl := "https://lic.example/x",
              headers := some [("Header1", "aaa"), ("Header2", "b b")] }] := by
  refine ⟨fun key h => ?_, by decide⟩
  unfold licenseKeySplit licenseKeySpecSplit
  by_cases hc : strContains key '|'
  · simp only [hc, if_true]
    rcases hps : jsSplit key '|' with _ | ⟨a, _ | ⟨b, _ | ⟨c, tl⟩⟩⟩
    · rfl
    · rfl
    · simp [joinSep]
    · rw [hps] at h
      simp at h
  · simp [hc]

/-- C5 amended witness: the agreement instantiated at the claim's
one-pipe example value. -/
theorem claim_c5_amended_witness :
    licenseKeySplit "https://lic.example/x|Header1=aaa&Header2=b%20b" =
      licenseKeySpecSplit "https://lic.example/x|Header1=aaa&Header2=b%20b" :=
  claim_c5_amended.1 _ (by decide)

/-- C4 counterexample: an `#EXTINF` line whose text after the final
comma is empty yields the name "Unknown Channel", not the
default-numbered `Channel 1` the claim asserts. -/
theorem claim_c4_counterexample :
    ((parseM3U 0 "#EXTINF:-1,\nhttp://x").1.map (fun c => c.name)) = ["Unknown Channel"]
    ∧ (decide ((parseM3U 0 "#EXTINF:-1,\nhttp://x").1.map (fun c => c.name)
        = ["Channel 1"])) = false := by
  exact ⟨by decide, by decide⟩

/-- C4 amended: a URL line reached with no truthy pending name (no
metadata line preceded it) produces the channel appended at position
N = previous-count + 1 with the default-numbered name `Channel N`;
whereas an `#EXTINF` line whose after-comma text is empty sets the
pending name to "Unknown Channel". -/
theorem claim_c4_amended :
    (∀ now idx (st : PState) u, isUrlLine u = true → optTruthy st.cur.name = false →
      (processLine now st idx u).channels.length = st.channels.length + 1
      ∧ ((processLine now st idx u).channels.getLast?).map Channel.name =
          some ("Channel " ++ toString (st.channels.length + 1)))
    ∧ (∀ now idx (st : PState) l, strStartsWith (jsTrim l) "#KODIPROP:" = false →
        strStartsWith (jsTrim l) "#EXTINF:" = true → strIsEmpty (jsTrim l) = false →
        strIsEmpty (extractName (strDrop (jsTrim l) 8)) = true →
        (processLine now st idx l).cur.name = some "Unknown Channel") := by
  constructor
  · intro now idx st u hu hn
    simp only [isUrlLine, Bool.and_eq_true, Bool.not_eq_true'] at hu
    obtain ⟨⟨⟨h1, h2⟩, h3⟩, h4⟩ := hu
    simp only [processLine, h1, h2, h3, h4, Bool.false_eq_true, if_false]
    constructor
    · simp [pushChannel]
    · simp [pushChannel, hn, List.getLast?_concat]
  · intro now idx st l h2 h3 h1 hname
    simp only [processLine, h1, h2, h3, Bool.false_eq_true, if_false, if_true]
    simp only [applyExtinf, hname, if_true]
    split_ifs <;> rfl

/-- C4 amended witness: the two branches instantiated at a bare URL
line and at `#EXTINF:-1,`. -/
theorem claim_c4_amended_witness :
    (processLine 0 initPState 0 "http://x").channels.length = 1
    ∧ ((processLine 0 initPState 0 "http://x").channels.getLast?).map Channel.name =
        some ("Channel " ++ toString 1)
    ∧ (processLine 0 initPState 1 "#EXTINF:-1,").cur.name = some "Unknown Channel" := by
  refine ⟨(claim_c4_amended.1 0 0 initPState "http://x" (by decide) (by decide)).1,
          (claim_c4_amended.1 0 0 initPState "http://x" (by decide) (by decide)).2,
          claim_c4_amended.2 0 1 initPState "#EXTINF:-1," (by decide) (by decide) (by decide)
            (by decide)⟩

theorem applyKodiprop_channels (st : PState) (p : String) :
    (applyKodiprop st p).channels = st.channels := by
  unfold applyKodiprop
  rcases hj : jsSplit p '=' with _ | ⟨k, _ | ⟨r, rest⟩⟩ <;> simp

theorem applyKodiprop_cats (st : PState) (p : String) :
    (applyKodiprop st p).cats = st.cats := by
  unfold applyKodiprop
  rcases hj : jsSplit p '=' with _ | ⟨k, _ | ⟨r, rest⟩⟩ <;> simp

theorem applyExtinf_channels (st : PState) (info : String) :
    (applyExtinf st info).channels = st.channels := by
  simp only [applyExtinf]
  split_ifs <;> rfl

theorem applyExtinf_props (st : PState) (info : String) :
    (applyExtinf st info).props = st.props := by
  simp only [applyExtinf]
  split_ifs <;> rfl

theorem processLine_props_empty (now idx : Nat) (st : PState) (l : String)
    (hk : strStartsWith (jsTrim l) "#KODIPROP:" = false) (hp : st.props = []) :
    (processLine now st idx l).props = [] := by
  simp only [processLine]
  split_ifs with h1 h2 h3 h4
  · exact hp
  · rw [hk] at h2; cases h2
  · rw [applyExtinf_props]; exact hp
  · exact hp
  · simp [pushChannel]

theorem processLine_url_props (now idx : Nat) (st : PState) (u : String)
    (hu : isUrlLine u = true) : (processLine now st idx u).props = [] := by
  simp only [isUrlLine, Bool.and_eq_true, Bool.not_eq_true'] at hu
  obtain ⟨⟨⟨h1, h2⟩, h3⟩, h4⟩ := hu
  simp [processLine, h1, h2, h3, h4, pushChannel]

theorem runLines_props_empty (now : Nat) (mid : List String) :
    ∀ (st : PState) (idx : Nat),
      (∀ l ∈ mid, strStartsWith (jsTrim l) "#KODIPROP:" = false) → st.props = [] →
      (runLines now st idx mid).props = [] := by
  induction mid with
  | nil => intro st idx _ hp; exact hp
  | cons l ls ih =>
    intro st idx hmid hp
    exact ih _ _ (fun x hx => hmid x (List.mem_cons_of_mem l hx))
      (processLine_props_empty now idx st l (hmid l (List.mem_cons_self l ls)) hp)

/-- C6: a `#KODIPROP` pair is attached only to the immediately
following URL line's channel: after any URL line the pending-properties
mapping is empty, and a URL line reached through property-free lines
from the previous URL line yields a channel with no DRM configuration
(and no user-agent/referrer). -/
theorem claim_c6_kodiprop_scope (now i j : Nat) (st : PState) (u1 u2 : String)
    (mid : List String) (h1 : isUrlLine u1 = true) (h2 : isUrlLine u2 = true)
    (hmid : ∀ l ∈ mid, strStartsWith (jsTrim l) "#KODIPROP:" = false) :
    (processLine now st i u1).props = []
    ∧ (processLine now (runLines now (processLine now st i u1) (i + 1) mid) j u2).channels.length
        = (runLines now (processLine now st i u1) (i + 1) mid).channels.length + 1
    ∧ ((processLine now (runLines now (processLine now st i u1) (i + 1) mid) j u2).channels.getLast?).map
        (fun c => (c.drm, c.userAgent, c.referrer)) = some (none, none, none) := by
  have hp1 : (processLine now st i u1).props = [] := processLine_url_props now i st u1 h1
  have hp2 : (runLines now (processLine now st i u1) (i + 1) mid).props = [] :=
    runLines_props_empty now mid _ _ hmid hp1
  have key : ∀ st2 : PState, st2.props = [] →
      (processLine now st2 j u2).channels.length = st2.channels.length + 1
      ∧ ((processLine now st2 j u2).channels.getLast?).map
          (fun c => (c.drm, c.userAgent, c.referrer)) = some (none, none, none) := by
    intro st2 hp
    simp only [isUrlLine, Bool.and_eq_true, Bool.not_eq_true'] at h2
    obtain ⟨⟨⟨g1, g2⟩, g3⟩, g4⟩ := h2
    constructor
    · simp [processLine, g1, g2, g3, g4, pushChannel]
    · simp [processLine, g1, g2, g3, g4, pushChannel, hp, getProp, optTruthy,
        List.getLast?_concat]
  exact ⟨hp1, (key _ hp2).1, (key _ hp2).2⟩

/-- C6 witness: the theorem instantiated at two bare URL lines with one
blank line between them. -/
theorem claim_c6_kodiprop_scope_witness :
    (processLine 0 initPState 0 "http://a").props = []
    ∧ (processLine 0 (runLines 0 (processLine 0 initPState 0 "http://a") 1 [""]) 2 "http://b").channels.length
        = (runLines 0 (processLine 0 initPState 0 "http://a") 1 [""]).channels.length + 1
    ∧ ((processLine 0 (runLines 0 (processLine 0 initPState 0 "http://a") 1 [""]) 2 "http://b").channels.getLast?).map
        (fun c => (c.drm, c.userAgent, c.referrer)) = some (none, none, none) :=
  claim_c6_kodiprop_scope 0 0 2 initPState "http://a" "http://b" [""] (by decide) (by decide)
    (by intro l hl; simp only [List.mem_singleton] at hl; subst hl; decide)

theorem getProp_cons (p : String × String) (t : List (String × String)) (k : String) :
    getProp (p :: t) k = if p.1 = k then some p.2 else getProp t k := by
  by_cases h : p.1 = k
  · have hb : (p.1 == k) = true := beq_iff_eq.mpr h
    simp [getProp, List.find?, hb, h]
  · have hb : (p.1 == k) = false := beq_eq_false_iff_ne.mpr h
    simp [getProp, List.find?, hb, h]

theorem getProp_setProp (l : List (String × String)) (k v k' : String) :
    (getProp (setProp l k v) k').isSome = (k' == k || (getProp l k').isSome) := by
  induction l with
  | nil =>
    rw [show setProp [] k v = [(k, v)] from rfl, getProp_cons]
    by_cases h : k = k'
    · simp [h]
    · have h2 : ¬ k' = k := fun e => h e.symm
      simp [h, h2, getProp]
  | cons p t ih =>
    simp only [setProp]
    by_cases h1 : p.1 = k
    · rw [if_pos (by simp [h1])]
      rw [getProp_cons, getProp_cons]
      by_cases h2 : p.1 = k'
      · have hk : k' = k := by rw [← h2, h1]
        simp [h2, hk]
      · have hk : ¬ k' = k := by rw [← h1]; exact fun e => h2 e.symm
        simp [h2, hk]
    · rw [if_neg (by simp [h1])]
      rw [getProp_cons, getProp_cons]
      by_cases h2 : p.1 = k'
      · simp [h2]
      · simp [h2, ih]

theorem getProp_headerFold (hs : List String) :
    ∀ (acc : List (String × String)) (k : String),
      (getProp (hs.foldl (fun acc h =>
          match pairKV h with
          | some kv => setProp acc kv.1 kv.2
          | none => acc) acc) k).isSome
        = ((getProp acc k).isSome
            || hs.any (fun h => ((pairKV h).map Prod.fst) == some k)) := by
  induction hs with
  | nil => intro acc k; simp
  | cons h t ih =>
    intro acc k
    simp only [List.foldl_cons, List.any_cons]
    rw [ih]
    rcases hkv : pairKV h with _ | ⟨⟨hk, hv⟩⟩
    · simp [hkv, show ∀ x : String, ((none : Option String) == some x) = false from fun _ => rfl]
    · simp only [hkv, Option.map_some']
      rw [getProp_setProp]
      rw [show ((some hk : Option String) == some k) = (hk == k) from rfl]
      by_cases h2 : hk = k
      · simp [h2]
      · have e1 : (k == hk) = false := beq_eq_false_iff_ne.mpr (Ne.symm h2)
        have e2 : (hk == k) = false := beq_eq_false_iff_ne.mpr h2
        simp [e1, e2]

theorem processLine_drm_headers (now idx : Nat) (st : PState) (l : String)
    (h : ∀ c ∈ st.channels, ∀ d, c.drm = some d → d.headers.isSome = true) :
    ∀ c ∈ (processLine now st idx l).channels, ∀ d, c.drm = some d → d.headers.isSome = true := by
  simp only [processLine]
  split_ifs with h1 h2 h3 h4
  · exact h
  · rw [applyKodiprop_channels]; exact h
  · rw [applyExtinf_channels]; exact h
  · exact h
  · intro c hc d hd
    simp only [pushChannel, List.mem_append, List.mem_singleton] at hc
    rcases hc with hc | hc
    · exact h c hc d hd
    · subst hc
      dsimp only at hd
      split at hd
      · cases hd; rfl
      · cases hd

theorem runLines_drm_headers (now : Nat) (ls : List String) :
    ∀ (st : PState) (idx : Nat),
      (∀ c ∈ st.channels, ∀ d, c.drm = some d → d.headers.isSome = true) →
      ∀ c ∈ (runLines now st idx ls).channels, ∀ d, c.drm = some d → d.headers.isSome = true := by
  induction ls with
  | nil => intro st idx h; exact h
  | cons l t ih => intro st idx h; exact ih _ _ (processLine_drm_headers now idx st l h)

/-- C10: every parsed channel carrying a DRM configuration has the
headers mapping present (possibly empty); the mapping holds a key
exactly when some `&`-piece of the pipe suffix is accepted by the
pair rule — non-empty name before the first `=` and non-empty value
between the first and second `=` (pairs with no `=`, an empty name or
an empty value are dropped; text after a second `=` is discarded from
the value, as pinned on `k=v=w&a=b`). -/
theorem claim_c10_headers :
    (∀ now content, ∀ c ∈ (parseM3U now content).1, ∀ d, c.drm = some d →
      d.headers.isSome = true)
    ∧ (∀ s k, (getProp (parseHeaderPairs s) k).isSome
        = (jsSplit s '&').any (fun h => ((pairKV h).map Prod.fst) == some k))
    ∧ parseHeaderPairs "noequals" = []
    ∧ parseHeaderPairs "=v" = []
    ∧ parseHeaderPairs "k=" = []
    ∧ parseHeaderPairs "k=v=w&a=b" = [("k", "v"), ("a", "b")] := by
  refine ⟨?_, ?_, by decide, by decide, by decide, by decide⟩
  · intro now content c hc d hd
    exact runLines_drm_headers now (jsSplit content '\n') initPState 0
      (by simp [initPState]) c hc d hd
  · intro s k
    have hf := getProp_headerFold (jsSplit s '&') [] k
    simpa [parseHeaderPairs, getProp] using hf

/-- C10 witness: the headers-present branch instantiated at a concrete
parsed DRM channel. -/
theorem claim_c10_headers_witness :
    (DrmConfig.mk "ck" "u" (some [("H", "a")])).headers.isSome = true :=
  claim_c10_headers.1 0
    "#KODIPROP:inputstream.adaptive.license_type=ck\n#KODIPROP:inputstream.adaptive.license_key=u|H=a\nhttp://s"
    ⟨"ch-0-2", none, "Channel 1", none, some "Uncategorized", "http://s",
      some ⟨"ck", "u", some [("H", "a")]⟩, none, none⟩
    (by decide) ⟨"ck", "u", some [("H", "a")]⟩ (by decide)

theorem charListLe_total : ∀ as bs : List Char,
    charListLe as bs = true ∨ charListLe bs as = true := by
  intro as
  induction as with
  | nil => intro bs; exact Or.inl rfl
  | cons a as ih =>
    intro bs
    cases bs with
    | nil => exact Or.inr rfl
    | cons b bs =>
      by_cases h1 : a.toNat < b.toNat
      · exact Or.inl (by simp [charListLe, h1])
      · by_cases h2 : b.toNat < a.toNat
        · exact Or.inr (by simp [charListLe, h2])
        · rcases ih bs with h | h
          · exact Or.inl (by simp [charListLe, h1, h2, h])
          · exact Or.inr (by simp [charListLe, h1, h2, h])

theorem strLe_total (a b : String) : strLe a b = true ∨ strLe b a = true :=
  charListLe_total a.toList b.toList

theorem chainLe_tail (b : String) (r : List String) (h : chainLe (b :: r) = true) :
    chainLe r = true := by
  cases r with
  | nil => rfl
  | cons c t =>
    simp only [chainLe, Bool.and_eq_true] at h
    exact h.2

theorem chainLe_head (b y : String) (r : List String) (h : chainLe (b :: r) = true)
    (hy : r.head? = some y) : strLe b y = true := by
  cases r with
  | nil => cases hy
  | cons c t =>
    cases hy
    simp only [chainLe, Bool.and_eq_true] at h
    exact h.1

theorem chainLe_cons_of (a : String) (l : List String) (hl : chainLe l = true)
    (hhead : ∀ y, l.head? = some y → strLe a y = true) : chainLe (a :: l) = true := by
  cases l with
  | nil => rfl
  | cons b r => simp [chainLe, hhead b rfl, hl]

theorem insertSorted_head? (x : String) (l : List String) :
    ∃ y, (insertSorted x l).head? = some y ∧ (y = x ∨ l.head? = some y) := by
  cases l with
  | nil => exact ⟨x, rfl, Or.inl rfl⟩
  | cons b r =>
    simp only [insertSorted]
    split_ifs with h
    · exact ⟨x, rfl, Or.inl rfl⟩
    · exact ⟨b, rfl, Or.inr rfl⟩

theorem insertSorted_chain (x : String) (l : List String) (h : chainLe l = true) :
    chainLe (insertSorted x l) = true := by
  induction l with
  | nil => rfl
  | cons b r ih =>
    simp only [insertSorted]
    split_ifs with hx
    · exact chainLe_cons_of x (b :: r) h (fun y hy => by cases hy; exact hx)
    · have hr := chainLe_tail b r h
      apply chainLe_cons_of b _ (ih hr)
      intro y hy
      obtain ⟨y', hy', hcase⟩ := insertSorted_head? x r
      rw [hy] at hy'
      cases hy'
      rcases hcase with hyx | hh
      · subst hyx
        rcases strLe_total y b with ht | ht
        · exact absurd ht hx
        · exact ht
      · exact chainLe_head b y r h hh

theorem insertSorted_perm (x : String) (l : List String) :
    List.Perm (insertSorted x l) (x :: l) := by
  induction l with
  | nil => exact List.Perm.refl _
  | cons b r ih =>
    simp only [insertSorted]
    split_ifs with h
    · exact List.Perm.refl _
    · exact (List.Perm.cons b ih).trans (List.Perm.swap x b r)

theorem sortStrings_perm (l : List String) : List.Perm (sortStrings l) l := by
  induction l with
  | nil => exact List.Perm.refl _
  | cons x xs ih => exact (insertSorted_perm x (sortStrings xs)).trans (List.Perm.cons x ih)

theorem sortStrings_chain (l : List String) : chainLe (sortStrings l) = true := by
  induction l with
  | nil => rfl
  | cons x xs ih => exact insertSorted_chain x (sortStrings xs) ih

theorem setAdd_mem_self (l : List String) (x : String) : x ∈ setAdd l x := by
  unfold setAdd
  split_ifs with h
  · exact List.elem_iff.mp h
  · exact List.mem_append_right l (List.mem_singleton_self x)

theorem setAdd_subset (l : List String) (x : String) : ∀ y ∈ l, y ∈ setAdd l x := by
  intro y hy
  unfold setAdd
  split_ifs with h
  · exact hy
  · exact List.mem_append_left _ hy

theorem setAdd_nodup (l : List String) (x : String) (h : l.Nodup) : (setAdd l x).Nodup := by
  unfold setAdd
  split_ifs with hc
  · exact h
  · rw [List.nodup_append]
    refine ⟨h, List.nodup_singleton x, ?_⟩
    intro a ha hb
    rw [List.mem_singleton] at hb
    subst hb
    exact hc (List.elem_iff.mpr ha)

theorem applyExtinf_cats (st : PState) (info : String) :
    (applyExtinf st info).cats = st.cats
    ∨ ∃ g, (applyExtinf st info).cats = setAdd st.cats g := by
  simp only [applyExtinf]
  split_ifs <;> first | exact Or.inr ⟨_, rfl⟩ | exact Or.inl rfl

theorem processLine_cats_mono (now idx : Nat) (st : PState) (l : String) :
    ∀ g ∈ st.cats, g ∈ (processLine now st idx l).cats := by
  intro g hg
  simp only [processLine]
  split_ifs with h1 h2 h3 h4
  · exact hg
  · rw [applyKodiprop_cats]; exact hg
  · rcases applyExtinf_cats st (strDrop (jsTrim l) 8) with hc | ⟨gg, hc⟩
    · rw [hc]; exact hg
    · rw [hc]; exact setAdd_subset _ _ g hg
  · exact hg
  · simp only [pushChannel]
    exact setAdd_subset _ _ g hg

theorem processLine_cats_nodup (now idx : Nat) (st : PState) (l : String)
    (h : st.cats.Nodup) : (processLine now st idx l).cats.Nodup := by
  simp only [processLine]
  split_ifs with h1 h2 h3 h4
  · exact h
  · rw [applyKodiprop_cats]; exact h
  · rcases applyExtinf_cats st (strDrop (jsTrim l) 8) with hc | ⟨gg, hc⟩
    · rw [hc]; exact h
    · rw [hc]; exact setAdd_nodup _ _ h
  · exact h
  · simp only [pushChannel]
    exact setAdd_nodup _ _ h

theorem processLine_group_inv (now idx : Nat) (st : PState) (l : String)
    (h : ∀ c ∈ st.channels, c.group.getD "" ∈ st.cats) :
    ∀ c ∈ (processLine now st idx l).channels,
      c.group.getD "" ∈ (processLine now st idx l).cats := by
  intro c hc
  simp only [processLine] at hc ⊢
  split_ifs at hc ⊢ with h1 h2 h3 h4
  · exact h c hc
  · rw [applyKodiprop_channels] at hc
    rw [applyKodiprop_cats]
    exact h c hc
  · rw [applyExtinf_channels] at hc
    rcases applyExtinf_cats st (strDrop (jsTrim l) 8) with hcat | ⟨gg, hcat⟩
    · rw [hcat]; exact h c hc
    · rw [hcat]; exact setAdd_subset _ _ _ (h c hc)
  · exact h c hc
  · simp only [pushChannel] at hc ⊢
    simp only [List.mem_append, List.mem_singleton] at hc
    rcases hc with hc | hc
    · exact setAdd_subset _ _ _ (h c hc)
    · subst hc
      dsimp only
      exact setAdd_mem_self _ _

theorem runLines_cats_nodup (now : Nat) (ls : List String) :
    ∀ (st : PState) (idx : Nat), st.cats.Nodup → (runLines now st idx ls).cats.Nodup := by
  induction ls with
  | nil => intro st idx h; exact h
  | cons l t ih => intro st idx h; exact ih _ _ (processLine_cats_nodup now idx st l h)

theorem runLines_group_inv (now : Nat) (ls : List String) :
    ∀ (st : PState) (idx : Nat),
      (∀ c ∈ st.channels, c.group.getD "" ∈ st.cats) →
      ∀ c ∈ (runLines now st idx ls).channels,
        c.group.getD "" ∈ (runLines now st idx ls).cats := by
  induction ls with
  | nil => intro st idx h; exact h
  | cons l t ih => intro st idx h; exact ih _ _ (processLine_group_inv now idx st l h)

theorem mkCategories_names : ∀ (i : Nat) (l : List String),
    (mkCategories i l).map Category.name = l := by
  intro i l
  induction l generalizing i with
  | nil => rfl
  | cons n ns ih => simp [mkCategories, ih]

/-- C3 counterexample: an `#EXTINF` line adds its group to the category
set even when no URL line follows, so the categories contain a name
that is the group of no parsed channel. -/
theorem claim_c3_counterexample :
    (parseM3U 0 "#EXTINF:-1 group-title=\"Ghost\",X").1.length = 0
    ∧ ((parseM3U 0 "#EXTINF:-1 group-title=\"Ghost\",X").2.map Category.name)
        = ["All Channels", "Ghost"]
    ∧ (decide (((parseM3U 0 "#EXTINF:-1 group-title=\"Ghost\",X").2.map Category.name)
        = ["All Channels"])) = false :=
  ⟨by decide, by decide, by decide⟩

/-- C3 amended: the category sequence is the synthetic "All Channels"
entry (fixed identifier `all`) at index 0 followed by the sorted,
duplicate-free list of collected group names, and every parsed
channel's group appears there; but a collected name need not be the
group of any parsed channel, because `#EXTINF` metadata adds its group
to the set even when no URL line completes a channel. -/
theorem claim_c3_amended (now : Nat) (content : String) :
    (parseM3U now content).2.head? = some { id := "all", name := "All Channels" }
    ∧ chainLe (((parseM3U now content).2.drop 1).map Category.name) = true
    ∧ (((parseM3U now content).2.drop 1).map Category.name).Nodup
    ∧ ∀ c ∈ (parseM3U now content).1,
        c.group.getD "" ∈ ((parseM3U now content).2.drop 1).map Category.name := by
  have hdrop : ((parseM3U now content).2.drop 1).map Category.name
      = sortStrings (runLines now initPState 0 (jsSplit content '\n')).cats := by
    simp [parseM3U, mkCategories_names]
  refine ⟨rfl, ?_, ?_, ?_⟩
  · rw [hdrop]; exact sortStrings_chain _
  · rw [hdrop]
    exact ((sortStrings_perm _).nodup_iff).mpr
      (runLines_cats_nodup now _ initPState 0 (by simp [initPState]))
  · intro c hc
    rw [hdrop]
    have hmem := runLines_group_inv now (jsSplit content '\n') initPState 0
      (by simp [initPState]) c hc
    exact ((sortStrings_perm _).mem_iff).mpr hmem

/-- C3 amended witness: the theorem instantiated at a one-channel
playlist, with the channel-group membership discharged at the parsed
channel. -/
theorem claim_c3_amended_witness :
    (parseM3U 0 "#EXTINF:-1 group-title=\"News\",CNN\nhttp://a").2.head?
        = some { id := "all", name := "All Channels" }
    ∧ chainLe (((parseM3U 0 "#EXTINF:-1 group-title=\"News\",CNN\nhttp://a").2.drop 1).map
        Category.name) = true
    ∧ ((Channel.mk "ch-0-1" none "CNN" none (some "News") "http://a" none none
        none).group.getD "")
        ∈ ((parseM3U 0 "#EXTINF:-1 group-title=\"News\",CNN\nhttp://a").2.drop 1).map
            Category.name :=
  ⟨(claim_c3_amended 0 _).1, (claim_c3_amended 0 _).2.1,
   (claim_c3_amended 0 _).2.2.2 _ (by decide)⟩

theorem sessRun_nil (ch : Channel) (s : SessState) : sessRun ch s [] = s := rfl

theorem sessRun_cons (ch : Channel) (s : SessState) (e : SessEvent) (evs : List SessEvent) :
    sessRun ch s (e :: evs) = sessRun ch (sessStep ch s e) evs := rfl

theorem sessRun_append (ch : Channel) (s : SessState) (e1 e2 : List SessEvent) :
    sessRun ch s (e1 ++ e2) = sessRun ch (sessRun ch s e1) e2 :=
  List.foldl_append _ _ _ _

theorem sessRun_advances_no_call (ch : Channel) (advs : List ℚ) :
    ∀ (s : SessState) (d : ℚ), s.deadline = some d → s.timerFired = false →
      (∀ q ∈ advs, 0 ≤ q) → s.now + advs.sum < d →
      sessRun ch s (advs.map SessEvent.advance) = { s with now := s.now + advs.sum } := by
  induction advs with
  | nil =>
    intro s d _ _ _ _
    simp [sessRun]
  | cons q qs ih =>
    intro s d hd hf hpos hb
    rw [List.sum_cons] at hb
    have hsum : 0 ≤ qs.sum :=
      List.sum_nonneg (fun x hx => hpos x (List.mem_cons_of_mem q hx))
    have hq : ¬ d ≤ s.now + q := by linarith
    have hstep : sessStep ch s (SessEvent.advance q) = { s with now := s.now + q } := by
      simp [sessStep, hd, hf, hq]
    rw [List.map_cons, sessRun_cons, hstep]
    rw [ih { s with now := s.now + q } d hd hf
      (fun x hx => hpos x (List.mem_cons_of_mem q hx)) (by dsimp only; linarith)]
    simp [List.sum_cons, add_assoc]

theorem sessRun_advances_idle (ch : Channel) (advs : List ℚ) :
    ∀ s : SessState, s.deadline = none →
      sessRun ch s (advs.map SessEvent.advance) = { s with now := s.now + advs.sum } := by
  induction advs with
  | nil => intro s _; simp [sessRun]
  | cons q qs ih =>
    intro s hd
    have hstep : sessStep ch s (SessEvent.advance q) = { s with now := s.now + q } := by
      simp [sessStep, hd]
    rw [List.map_cons, sessRun_cons, hstep, ih { s with now := s.now + q } hd]
    simp [List.sum_cons, add_assoc]

theorem sessRun_latch (ch : Channel) (evs : List SessEvent) :
    ∀ s : SessState, s.timerFired = true → s.isRemoving = true →
      (sessRun ch s evs).calls = s.calls
      ∧ (sessRun ch s evs).timerFired = true
      ∧ (sessRun ch s evs).isRemoving = true := by
  induction evs with
  | nil => intro s hf hr; exact ⟨rfl, hf, hr⟩
  | cons e t ih =>
    intro s hf hr
    have hstep : (sessStep ch s e).calls = s.calls ∧ (sessStep ch s e).timerFired = true
        ∧ (sessStep ch s e).isRemoving = true := by
      cases e with
      | advance q =>
        cases hdl : s.deadline with
        | none => simp [sessStep, hdl, hf, hr]
        | some d => simp [sessStep, hdl, hf, hr]
      | dashError => simp [sessStep, handleFatalError, hr, hf]
      | hlsError f t' =>
        simp only [sessStep]
        split
        · simp [handleFatalError, hr, hf]
        · exact ⟨rfl, hf, hr⟩
    obtain ⟨hc, hf2, hr2⟩ := hstep
    obtain ⟨ic, if2, ir2⟩ := ih (sessStep ch s e) hf2 hr2
    rw [sessRun_cons]
    exact ⟨ic.trans hc, if2, ir2⟩

/-- C1: after a fatal DASH engine error the channel-failed callback
fires exactly once, carrying the channel's identifier, exactly when the
fixed 2.5-second delay has elapsed and never before (any sequence of
non-negative time advances summing below the delay produces no call;
once the delay elapses the call list is exactly the channel id and
stays so under arbitrary further events); while a non-fatal HLS error
produces no call and leaves the session active. -/
theorem claim_c1_fatal_dash_escalation :
    (∀ (ch : Channel) (t0 : ℚ) (advs : List ℚ), (∀ q ∈ advs, 0 ≤ q) →
      advs.sum < removalDelay →
      (sessRun ch initSessState ([SessEvent.advance t0, SessEvent.dashError]
        ++ advs.map SessEvent.advance)).calls = [])
    ∧ (∀ (ch : Channel) (t0 delta : ℚ) (rest : List SessEvent), removalDelay ≤ delta →
      (sessRun ch initSessState ([SessEvent.advance t0, SessEvent.dashError,
        SessEvent.advance delta] ++ rest)).calls = [ch.id])
    ∧ (∀ (ch : Channel) (t0 : ℚ) (t : HlsErrorType) (advs : List ℚ),
      (sessRun ch initSessState ([SessEvent.advance t0, SessEvent.hlsError false t]
        ++ advs.map SessEvent.advance)).calls = []
      ∧ sessionActive (sessRun ch initSessState ([SessEvent.advance t0,
          SessEvent.hlsError false t] ++ advs.map SessEvent.advance)) = true) := by
  refine ⟨?_, ?_, ?_⟩
  · intro ch t0 advs hpos hsum
    rw [sessRun_append]
    have hpre : sessRun ch initSessState [SessEvent.advance t0, SessEvent.dashError]
        = { now := 0 + t0, isRemoving := true, errorMsg := some "DASH Error",
            deadline := some (0 + t0 + removalDelay), timerFired := false, calls := [] } := by
      simp [sessRun, sessStep, initSessState, handleFatalError]
    rw [hpre]
    rw [sessRun_advances_no_call ch advs _ (0 + t0 + removalDelay) rfl rfl hpos
      (by dsimp only; linarith)]
  · intro ch t0 delta rest hdelta
    rw [sessRun_append]
    have hfire : (0 : ℚ) + t0 + removalDelay ≤ 0 + t0 + delta := by linarith
    have hpre : sessRun ch initSessState
        [SessEvent.advance t0, SessEvent.dashError, SessEvent.advance delta]
        = { now := 0 + t0 + delta, isRemoving := true, errorMsg := some "DASH Error",
            deadline := some (0 + t0 + removalDelay), timerFired := true,
            calls := [ch.id] } := by
      simp [sessRun, sessStep, initSessState, handleFatalError, hfire, hdelta]
    rw [hpre]
    exact (sessRun_latch ch rest _ rfl rfl).1
  · intro ch t0 t advs
    rw [sessRun_append]
    have hpre : sessRun ch initSessState [SessEvent.advance t0, SessEvent.hlsError false t]
        = { initSessState with now := 0 + t0 } := by
      simp [sessRun, sessStep, initSessState, hlsOnError]
    rw [hpre]
    rw [sessRun_advances_idle ch advs _ rfl]
    exact ⟨rfl, rfl⟩

/-- C1 witness: the three branches instantiated at a concrete channel —
one second then a fatal DASH error then one more second gives no call;
waiting the full delay delivers exactly one call with the channel id;
a non-fatal HLS network error leaves no call and an active session. -/
theorem claim_c1_fatal_dash_escalation_witness :
    (sessRun (Channel.mk "c1" none "X" none none "u" none none none) initSessState
        ([SessEvent.advance 1, SessEvent.dashError] ++ [(1 : ℚ)].map SessEvent.advance)).calls
      = []
    ∧ (sessRun (Channel.mk "c1" none "X" none none "u" none none none) initSessState
        ([SessEvent.advance 1, SessEvent.dashError, SessEvent.advance (5 / 2)] ++ [])).calls
      = [(Channel.mk "c1" none "X" none none "u" none none none).id]
    ∧ (sessRun (Channel.mk "c1" none "X" none none "u" none none none) initSessState
        ([SessEvent.advance 1, SessEvent.hlsError false HlsErrorType.networkError]
          ++ [(2 : ℚ)].map SessEvent.advance)).calls = [] :=
  ⟨claim_c1_fatal_dash_escalation.1 _ 1 [1]
      (by intro q hq; rw [List.mem_singleton] at hq; subst hq; norm_num)
      (by norm_num [removalDelay]),
   claim_c1_fatal_dash_escalation.2.1 _ 1 (5 / 2) [] (by norm_num [removalDelay]),
   (claim_c1_fatal_dash_escalation.2.2 _ 1 HlsErrorType.networkError [2]).1⟩
